import Mathlib

/-!
Verification of the port subsystem of the `modular_flow` dataflow library
(`src/modular_flow/mod.rs`).

The development shallowly embeds the library's data model and operations:

* a `Port` is a record of the fields of the Rust `Port` struct that carry
  observable state (the byte buffer, the edge, the pending-reader slot, the
  connect-wait list, the lock wait queue and the disconnect flag);
* the set of live ports (`Sys`) is a list of ports; a `Weak<Port>` edge
  reference upgrades successfully exactly when the referenced port is live,
  which is modelled by lookup in the list;
* each operation (`connect`, `disconnect`, `ReadFuture::poll`,
  `WriteFuture::poll`, `disconnect_abort`) is a state transformer giving the
  net effect of the corresponding Rust function's critical sections, in the
  uncontended sequential case (the spin/retry mechanics of the hand-rolled
  `buf_lock` primitive resolve to the first-try-succeeds path when no other
  operation holds the lock);
* bytes are `Nat`, wakers are `Nat` tokens (the code only stores, compares
  and invokes them), and a typed element of a type of size `s` is its byte
  encoding, a `List Nat` of length `s`.

`TypeId` equality in Rust determines the concrete type and hence its size, so
a type tag is modelled as an identifier together with its element size, and
tag comparison compares the whole record.
-/

namespace ModularFlow

/-- A waker token (`task::Waker`).  The code only stores, compares and wakes
wakers, so an opaque token suffices. -/
abbrev Waker := Nat

/-- A type tag (`TypeId` in the source) together with the element size that
the type determines.  Two equal `TypeId`s denote the same Rust type and hence
the same size, so equality of the record models `TypeId` equality. -/
structure ElemTy where
  tid : Nat
  size : Nat
deriving DecidableEq

/-- Port metadata (`MetaPort`): name, input element type, output element
type.  `MetaPort::new` asserts both element sizes are non-zero; that
constraint appears as a hypothesis where needed. -/
structure MetaPort where
  name : String
  in_ty : ElemTy
  out_ty : ElemTy
deriving DecidableEq

/-- The observable state of a `Port`.

* `buffer` — the `VecDeque<u8>` byte FIFO (head = oldest byte);
* `reader_buf` — the `AtomicOption<Waker>` single pending-reader slot;
* `connect_wait` — wakers of writers parked waiting for a connection;
* `buf_lock_q` — the `SegQueue<Waker>` of contenders for the buffer lock;
* `edge` — the `Option<Weak<Port>>` partner reference, stored as the partner
  port id; upgrading the weak reference succeeds only while that port is
  live (present in the system);
* `disconnect_occured` — the `AtomicBool` disconnect-notification flag. -/
structure Port where
  meta : MetaPort
  id : Nat
  buffer : List Nat
  reader_buf : Option Waker
  connect_wait : List Waker
  buf_lock_q : List Waker
  edge : Option Nat
  disconnect_occured : Bool
deriving DecidableEq

/-- The collection of live ports of a graph. -/
abbrev Sys := List Port

/-- Look a live port up by id (successful `Weak::upgrade` target). -/
def lookup (sys : Sys) (i : Nat) : Option Port :=
  sys.find? (fun p => p.id == i)

/-- Semantics of `edge.as_ref().and_then(|x| x.upgrade())`: the edge reference resolves
only while the referenced port is live. -/
def resolveEdge (sys : Sys) (p : Port) : Option Port :=
  p.edge.bind (lookup sys)

/-! ### Byte-level type erasure (`typed_as_bytes` / `bytes_as_typed`) -/

/-- Model of `typed_as_bytes` (lines 556-560): flatten a typed element sequence (each element given by
its byte encoding) into the raw byte span that enters the buffer. -/
def typed_as_bytes (data : List (List Nat)) : List Nat :=
  data.flatten

/-- Model of `bytes_as_typed` (lines 562-567): reconstitute a byte span into elements of size `s` by
cutting it into `s`-byte chunks. -/
def bytes_as_typed (s : Nat) (data : List Nat) : List (List Nat) :=
  if h : s = 0 ∨ data = [] then []
  else
    have : data.length - s < data.length := by
      rcases data with _ | ⟨x, xs⟩
      · simp at h
      · have hs : 0 < s := Nat.pos_of_ne_zero (by tauto)
        simp [Nat.sub_lt (Nat.succ_pos _) hs]
    (data.take s) :: bytes_as_typed s (data.drop s)
termination_by data.length

/-- The `assert_eq!(data.len() % mem::size_of::<T>(), 0)` alignment check in
`bytes_as_typed`. -/
def bytesAligned (s : Nat) (data : List Nat) : Prop :=
  data.length % s = 0

/-- Every element of the sequence is `s` bytes long (the encoding of one
element of a type of size `s`). -/
def WellSized (s : Nat) (data : List (List Nat)) : Prop :=
  ∀ x ∈ data, x.length = s

instance (s : Nat) (data : List (List Nat)) : Decidable (WellSized s data) := by
  unfold WellSized
  infer_instance

/-! ### The connection protocol (`Port::connect` / `Port::disconnect`) -/

/-- The `ConnectError` enumeration as in the source. -/
inductive ConnectError
  | AlreadyConnected
  | TypeMismatch
  | NotConnected
deriving DecidableEq

/-- Outcome of `connect` / `disconnect`: success with the new system state,
a recoverable error (the system state is returned unchanged, as the error
paths of the source perform no mutation), or `fatal` for the
`unimplemented!()` / failed `assert!` paths, which abort the process. -/
inductive ConnectOutcome
  | ok (sys : Sys)
  | err (e : ConnectError) (sys : Sys)
  | fatal
deriving DecidableEq

/-- The bidirectional type-compatibility test of `Port::connect`
(line 232): `self.meta.in_ty == other.meta.out_ty && self.meta.out_ty ==
other.meta.in_ty`. -/
def compatible (a b : MetaPort) : Bool :=
  a.in_ty == b.out_ty && a.out_ty == b.in_ty

/-- The per-port state change of a successful `connect(a, b)`: both edges
are recorded (lines 253-254) and both ports' connect-wait lists are drained,
waking every parked writer (lines 257-264). -/
def connectUpd (ia ib : Nat) (p : Port) : Port :=
  if p.id = ia then { p with edge := some ib, connect_wait := [] }
  else if p.id = ib then { p with edge := some ia, connect_wait := [] }
  else p

/-- Net effect of `Port::connect` (lines 231-267).  The edge locks are taken
in ascending-id order (lines 241-245); sequentially only their net effect is
visible.  `Arc::ptr_eq(self, other)` is id equality, since each port carries
the unique id it was created with.  Callers hold `Arc` handles to both
ports, so both are live; the fallback branch is unreachable. -/
def connect (sys : Sys) (ia ib : Nat) : ConnectOutcome :=
  match lookup sys ia, lookup sys ib with
  | some a, some b =>
    if ¬(compatible a.meta b.meta) then .err .TypeMismatch sys
    else if ia = ib then .fatal
    else if (resolveEdge sys a).isSome || (resolveEdge sys b).isSome then
      .err .AlreadyConnected sys
    else
      .ok (sys.map (connectUpd ia ib))
  | _, _ => .fatal

/-- Model of `Port::disconnect_abort` (lines 320-335): set the disconnect flag, take
and wake the pending reader, and wake one queued buffer-lock waiter. -/
def disconnect_abort (p : Port) : Port :=
  { p with
    disconnect_occured := true
    reader_buf := none
    buf_lock_q := p.buf_lock_q.tail }

/-- The per-port state change of a successful `disconnect` on the pair
`(ia, ib)`: both edges are cleared (lines 308-309) and `disconnect_abort`
runs on both ports (lines 313-314). -/
def disconnectUpd (ia ib : Nat) (p : Port) : Port :=
  if p.id = ia ∨ p.id = ib then disconnect_abort { p with edge := none }
  else p

/-- Net effect of `Port::disconnect` (lines 271-319).  The partner is
resolved first (line 280, `NotConnected` if none); the re-validation under
the ordered locks (lines 293-302) trivially succeeds in the sequential
model, so the retry loop runs once; the `assert!` that the partner's edge
points back (lines 304-307) aborts the process when it fails. -/
def disconnect (sys : Sys) (ia : Nat) : ConnectOutcome :=
  match lookup sys ia with
  | none => .fatal
  | some a =>
    match resolveEdge sys a with
    | none => .err .NotConnected sys
    | some other =>
      if other.id = ia then .fatal
      else
        match resolveEdge sys other with
        | some back =>
          if back.id = ia then .ok (sys.map (disconnectUpd ia other.id))
          else .fatal
        | none => .fatal

/-! ### The buffered channel core (`ReadFuture::poll` / `WriteFuture::poll`) -/

/-- Result of one `ReadFuture::poll`. -/
inductive ReadResult
  | ready (data : List Nat)
  | pending
  | disconnected
  | fatal
deriving DecidableEq

/-- Net effect of `ReadFuture::poll` (lines 405-479) in the uncontended
case, on the polled port.  `nBytes` is the stored byte goal: `read_n(n)`
stores `some (n * size)`, `read` stores `none` (lines 376-386, 364-372);
`w` is the polling task's waker.

Checked in source order: the disconnect flag is tested and cleared first
(lines 420-425, an early return that skips the queue-waiter wake at line
468); with insufficient data the waker is installed as the single pending
reader, a *different* already-installed reader being the fatal
"multiple simultaneous reads" panic (lines 429-444); otherwise exactly
`nBytes` bytes (or the whole buffer) are drained (lines 446-450).  On the
non-disconnect paths one queued buffer-lock waiter is woken (line 468). -/
def readPoll (p : Port) (nBytes : Option Nat) (w : Waker) : ReadResult × Port :=
  if p.disconnect_occured then
    (.disconnected, { p with disconnect_occured := false })
  else if (match nBytes with
           | some n => decide (p.buffer.length < n)
           | none => p.buffer.length == 0 : Bool) then
    match p.reader_buf with
    | some old =>
      if old ≠ w then (.fatal, p)
      else (.pending, { p with reader_buf := some w, buf_lock_q := p.buf_lock_q.tail })
    | none =>
      (.pending, { p with reader_buf := some w, buf_lock_q := p.buf_lock_q.tail })
  else
    let n := nBytes.getD p.buffer.length
    (.ready (p.buffer.take n),
      { p with buffer := p.buffer.drop n, buf_lock_q := p.buf_lock_q.tail })

/-- Result of one `WriteFuture::poll`.  The future's error type admits no
write error: `poll` (lines 491-536) either parks or completes. -/
inductive WriteResult
  | ready
  | pending
deriving DecidableEq

/-- The partner-side state change of a completed write: the bytes are
appended to the partner's buffer (lines 512-513), one queued buffer-lock
waiter is woken (line 530), and the partner's pending reader is taken and
woken (line 533). -/
def recvWrite (data : List Nat) (q : Port) : Port :=
  { q with
    buffer := q.buffer ++ data
    buf_lock_q := q.buf_lock_q.tail
    reader_buf := none }

/-- Net effect of `WriteFuture::poll` (lines 491-536) in the uncontended
case.  The writing port's partner is resolved (lines 493-504); with no live
partner the waker is parked on the writer's connect-wait list and the future
pends; otherwise the write completes into the partner's buffer.  The third
component lists the wakers woken on completion: the popped buffer-lock
waiter, then the taken pending reader.  Callers hold an `Arc` to the written
port, so it is live; the fallback is unreachable. -/
def writePoll (sys : Sys) (ia : Nat) (data : List Nat) (w : Waker) :
    WriteResult × Sys × List Waker :=
  match lookup sys ia with
  | none => (.pending, sys, [])
  | some p =>
    match resolveEdge sys p with
    | none =>
      (.pending,
        sys.map (fun q =>
          if q.id = ia then { q with connect_wait := q.connect_wait ++ [w] } else q),
        [])
    | some other =>
      (.ready,
        sys.map (fun q => if q.id = other.id then recvWrite data q else q),
        other.buf_lock_q.head?.toList ++ other.reader_buf.toList)

/-! ### Lookup lemmas -/

/-- All live ports carry distinct ids (ids are issued by the monotonic
`generate_id` counter and never reused). -/
def IdsNodup (sys : Sys) : Prop :=
  (sys.map Port.id).Nodup

instance (sys : Sys) : Decidable (IdsNodup sys) := by
  unfold IdsNodup
  infer_instance

/-! ### The edge-symmetry invariant -/

/-- Symmetry at one port: if `p`'s edge resolves to a live `q`, then `q`'s
edge resolves back to `p`. -/
def symAt (sys : Sys) (p : Port) : Bool :=
  match resolveEdge sys p with
  | none => true
  | some q => resolveEdge sys q == some p

/-- Edge symmetry for the whole system: no one-sided edge between live
ports. -/
def EdgeSym (sys : Sys) : Prop :=
  ∀ p ∈ sys, symAt sys p = true

instance (sys : Sys) : Decidable (EdgeSym sys) := by
  unfold EdgeSym
  infer_instance

/-! ### Sequences of connection operations (for the reachability invariant) -/

/-- A connection-protocol operation: `connect(a, b)` or `disconnect(a)`. -/
inductive ConnOp
  | conn (ia ib : Nat)
  | disc (ia : Nat)
deriving DecidableEq

/-- Apply one operation; a recoverable error leaves the state unchanged (the
error paths mutate nothing), and a fatal path mutates nothing before
aborting. -/
def applyConnOp (sys : Sys) : ConnOp → Sys
  | .conn ia ib =>
    match connect sys ia ib with
    | .ok s => s
    | .err _ s => s
    | .fatal => sys
  | .disc ia =>
    match disconnect sys ia with
    | .ok s => s
    | .err _ s => s
    | .fatal => sys

/-- Run a sequence of connect/disconnect operations. -/
def runConnOps (sys : Sys) : List ConnOp → Sys
  | [] => sys
  | op :: rest => runConnOps (applyConnOp sys op) rest

/-! ### The lock-acquisition discipline of the connection protocol

`connect` (lines 239-245) and `disconnect` (lines 285-292) acquire the two
ports' edge locks in ascending numeric-id order regardless of call
direction.  The model below abstracts a population of concurrent
connect/disconnect operations as threads that each acquire an ordered pair
of locks; progress of the whole system is provable from the ordering alone. -/

/-- The lock-acquisition order of `Port::connect` (lines 241-245): the pair
`(first, second)`, always the lower id first. -/
def connectLockPair (selfId otherId : Nat) : Nat × Nat :=
  if selfId < otherId then (selfId, otherId) else (otherId, selfId)

/-- The lock-acquisition order of `Port::disconnect` (lines 286-292): self
first when `self.id < other.id`, otherwise other first — again the lower id
first. -/
def disconnectLockPair (selfId otherId : Nat) : Nat × Nat :=
  if selfId < otherId then (selfId, otherId) else (otherId, selfId)

/-- A population of `n` two-lock acquirers: thread `t` acquires
`(want t).1` then `(want t).2`;  `prog t` is `0` (holds nothing), `1` (holds
the first lock), `2` (holds both, about to finish and release), or `3`
(finished, all locks released). -/
structure LockState (n : Nat) where
  want : Fin n → Nat × Nat
  prog : Fin n → Nat

/-- Thread `t` currently holds lock `L`. -/
def holdsLock {n : Nat} (s : LockState n) (t : Fin n) (L : Nat) : Bool :=
  ((s.prog t == 1 || s.prog t == 2) && (s.want t).1 == L) ||
    (s.prog t == 2 && (s.want t).2 == L)

/-- No thread holds lock `L`. -/
def lockFree {n : Nat} (s : LockState n) (L : Nat) : Bool :=
  decide (∀ t, holdsLock s t L = false)

/-- Thread `t` can take a step: acquire its next lock (which must be free),
or finish. -/
def canStep {n : Nat} (s : LockState n) (t : Fin n) : Bool :=
  if s.prog t = 0 then lockFree s (s.want t).1
  else if s.prog t = 1 then lockFree s (s.want t).2
  else s.prog t == 2

/-- A deadlock: some thread is unfinished, yet no thread can step. -/
def deadlocked {n : Nat} (s : LockState n) : Prop :=
  (∃ t, s.prog t < 3) ∧ ∀ t, canStep s t = false

/-- The lock an unfinished thread is waiting to acquire next. -/
def wantedLock {n : Nat} (s : LockState n) (t : Fin n) : Nat :=
  if s.prog t = 0 then (s.want t).1 else (s.want t).2

/-- Two concurrent operations racing from opposite numeric orders: a
`connect` called from port 1 toward port 2 and a `disconnect` whose lock
pair was computed from port 2 toward port 1, neither holding a lock yet. -/
def lockDemo : LockState 2 where
  want := fun t => if t.val = 0 then connectLockPair 1 2 else disconnectLockPair 2 1
  prog := fun _ => 0

/-! ### Byte traffic through one port's buffer (for the alignment invariant) -/

/-- One event at a port's buffer: an incoming write of typed elements from
the partner (landing via `WriteFuture::poll`), or one `ReadFuture::poll` on
the port with the stored element goal (`some k` for `read_n(k)`, `none` for
`read`). -/
inductive PortAct
  | wr (elems : List (List Nat))
  | rd (nElems : Option Nat) (w : Waker)
deriving DecidableEq

/-- Run a trace of buffer events at one port whose element type has size
`s`; collect the byte spans delivered to completed reads.  A write lands via
`recvWrite` (the partner-side effect of `WriteFuture::poll`); a read is one
`readPoll` with byte goal `nElems * s` as stored by `read_n` (line 384),
or `none` for `read`. -/
def runPortActs (s : Nat) (p : Port) : List PortAct → Port × List (List Nat)
  | [] => (p, [])
  | .wr elems :: rest => runPortActs s (recvWrite (typed_as_bytes elems) p) rest
  | .rd nElems w :: rest =>
    match readPoll p (nElems.map (fun k => k * s)) w with
    | (.ready data, p') =>
      let r := runPortActs s p' rest
      (r.1, data :: r.2)
    | (_, p') => runPortActs s p' rest

/-- A single event is well-sized: a write carries elements of `s` bytes
each (it comes from a type-compatible partner whose element size is `s`);
reads are unconstrained. -/
def actWellSized (s : Nat) : PortAct → Bool
  | .wr elems => decide (WellSized s elems)
  | .rd _ _ => true

/-- Every write event in the trace carries well-sized elements. -/
def ActsWellSized (s : Nat) (acts : List PortAct) : Prop :=
  ∀ a ∈ acts, actWellSized s a = true

instance (s : Nat) (acts : List PortAct) : Decidable (ActsWellSized s acts) := by
  unfold ActsWellSized
  infer_instance

/-! ### Concrete fixtures (the spec's `MetaPort("sig", f32, f32)` scenario) -/

/-- A four-byte element type standing for `f32`. -/
def tyF32 : ElemTy := ⟨0, 4⟩

/-- A two-byte element type with a different tag (for mismatch cases). -/
def tyU16 : ElemTy := ⟨1, 2⟩

/-- The spec scenario metadata `MetaPort("sig", f32, f32)`. -/
def metaSig : MetaPort := ⟨"sig", tyF32, tyF32⟩

/-- Distinct metadata `MetaPort("other", u16, u16)` for mismatch cases. -/
def metaOther : MetaPort := ⟨"other", tyU16, tyU16⟩

/-- A fresh port with the given metadata and id. -/
def freshPort (m : MetaPort) (i : Nat) : Port :=
  ⟨m, i, [], none, [], [], none, false⟩

/-- Two fresh compatible ports. -/
def sysPair : Sys := [freshPort metaSig 1, freshPort metaSig 2]

/-- A port whose disconnect-notification flag is set, with queued bytes. -/
def portFlagged : Port := ⟨metaSig, 3, [9, 8, 7, 6], some 5, [], [7], none, true⟩

/-- A port with twelve queued bytes (three 4-byte elements) and no flag. -/
def portLoaded : Port :=
  ⟨metaSig, 4, [0, 1, 2, 3, 4, 5, 6, 7, 8, 9, 10, 11], none, [], [], some 9, false⟩

/-! ### Helper lemmas -/

theorem connectUpd_id (ia ib : Nat) (p : Port) :
    (connectUpd ia ib p).id = p.id := by
  unfold connectUpd
  split
  · rfl
  · split <;> rfl

theorem disconnectUpd_id (ia ib : Nat) (p : Port) :
    (disconnectUpd ia ib p).id = p.id := by
  unfold disconnectUpd
  split <;> simp [disconnect_abort]

theorem bytes_as_typed_nil (s : Nat) : bytes_as_typed s [] = [] := by
  rw [bytes_as_typed]
  simp

theorem bytes_as_typed_cons (s : Nat) (data : List Nat) (hs : s ≠ 0)
    (hd : data ≠ []) :
    bytes_as_typed s data = data.take s :: bytes_as_typed s (data.drop s) := by
  rw [bytes_as_typed]
  simp [hs, hd]

/-- Flattening then chunking is the identity on well-sized sequences. -/
theorem bytes_as_typed_typed_as_bytes (s : Nat) (hs : s ≠ 0)
    (data : List (List Nat)) (h : WellSized s data) :
    bytes_as_typed s (typed_as_bytes data) = data := by
  induction data with
  | nil => simp [typed_as_bytes, bytes_as_typed_nil]
  | cons x xs ih =>
    have hx : x.length = s := h x (List.mem_cons_self _ _)
    have hxs : WellSized s xs := fun y hy => h y (List.mem_cons_of_mem _ hy)
    have hxne : x ≠ [] := by
      intro hc
      rw [hc] at hx
      exact hs hx.symm
    have hjoin : typed_as_bytes (x :: xs) = x ++ typed_as_bytes xs := by
      simp [typed_as_bytes]
    rw [hjoin]
    have hne : x ++ typed_as_bytes xs ≠ [] := by
      simp [hxne]
    rw [bytes_as_typed_cons s _ hs hne]
    rw [← hx]
    rw [List.take_left, List.drop_left]
    rw [hx]
    rw [ih hxs]

/-- The flattened form of a well-sized sequence occupies
`s * (number of elements)` bytes. -/
theorem typed_as_bytes_length (s : Nat) (data : List (List Nat))
    (h : WellSized s data) :
    (typed_as_bytes data).length = data.length * s := by
  induction data with
  | nil => simp [typed_as_bytes]
  | cons x xs ih =>
    have hx : x.length = s := h x (List.mem_cons_self _ _)
    have hxs : WellSized s xs := fun y hy => h y (List.mem_cons_of_mem _ hy)
    simp [typed_as_bytes] at ih ⊢
    rw [hx, ih hxs]
    ring

/-- Chunking a byte span of length `n * s` yields exactly `n` elements. -/
theorem bytes_as_typed_length (s : Nat) (hs : s ≠ 0) :
    ∀ (n : Nat) (data : List Nat), data.length = n * s →
      (bytes_as_typed s data).length = n := by
  intro n
  induction n with
  | zero =>
    intro data hlen
    simp at hlen
    simp [hlen, bytes_as_typed_nil]
  | succ k ih =>
    intro data hlen
    have hpos : 0 < data.length := by
      rw [hlen]
      exact Nat.mul_pos (Nat.succ_pos _) (Nat.pos_of_ne_zero hs)
    have hne : data ≠ [] := by
      intro hc
      rw [hc] at hpos
      simp at hpos
    rw [bytes_as_typed_cons s data hs hne]
    have hslen : s ≤ data.length := by
      rw [hlen, Nat.succ_mul]
      exact Nat.le_add_left _ _
    have hdroplen : (data.drop s).length = k * s := by
      simp [List.length_drop, hlen, Nat.succ_mul]
    simp [ih (data.drop s) hdroplen]

theorem lookup_id {sys : Sys} {i : Nat} {p : Port}
    (h : lookup sys i = some p) : p.id = i ∧ p ∈ sys := by
  unfold lookup at h
  have h1 := List.find?_some h
  have h2 := List.mem_of_find?_eq_some h
  simp at h1
  exact ⟨h1, h2⟩

theorem lookup_map (sys : Sys) (h : Port → Port)
    (hid : ∀ p, (h p).id = p.id) (j : Nat) :
    lookup (sys.map h) j = (lookup sys j).map h := by
  induction sys with
  | nil => simp [lookup]
  | cons p rest ih =>
    by_cases hp : p.id = j
    · simp [lookup, List.find?, hid, hp]
    · unfold lookup at ih ⊢
      simp only [List.map_cons, List.find?]
      have h1 : ((h p).id == j) = false := by
        simp [hid, hp]
      have h2 : (p.id == j) = false := by
        simp [hp]
      rw [h1, h2]
      exact ih

theorem lookup_self {sys : Sys} (hnd : IdsNodup sys) {p : Port}
    (hp : p ∈ sys) : lookup sys p.id = some p := by
  induction sys with
  | nil => simp at hp
  | cons q rest ih =>
    unfold IdsNodup at hnd
    simp only [List.map_cons, List.nodup_cons] at hnd
    rcases List.mem_cons.mp hp with hq | hq
    · subst hq
      simp [lookup, List.find?]
    · have hne : q.id ≠ p.id := by
        intro hc
        exact hnd.1 (hc ▸ List.mem_map_of_mem Port.id hq)
      unfold lookup
      simp only [List.find?]
      have : (q.id == p.id) = false := by simp [hne]
      rw [this]
      exact ih hnd.2 hq

theorem symAt_iff (sys : Sys) (p : Port) :
    symAt sys p = true ↔
      ∀ q, resolveEdge sys p = some q → resolveEdge sys q = some p := by
  unfold symAt
  cases h : resolveEdge sys p with
  | none => simp
  | some q => simp


theorem readPoll_shape (p : Port) (nb : Option Nat) (w : Waker) :
    (∃ n, n = nb.getD p.buffer.length ∧ n ≤ p.buffer.length ∧
      (readPoll p nb w).1 = .ready (p.buffer.take n) ∧
      (p.buffer.take n).length = n ∧
      (readPoll p nb w).2.buffer = p.buffer.drop n) ∨
    ((readPoll p nb w).2.buffer = p.buffer ∧
      ∀ d, (readPoll p nb w).1 ≠ .ready d) := by
  unfold readPoll
  by_cases hflag : p.disconnect_occured
  · right
    simp [hflag]
  · by_cases hcond : (match nb with
      | some n => decide (p.buffer.length < n)
      | none => p.buffer.length == 0 : Bool) = true
    · right
      simp only [hflag, hcond]
      cases hr : p.reader_buf with
      | some old =>
        by_cases how : old ≠ w
        · simp [how]
        · simp [how]
      | none => simp
    · left
      have hle : nb.getD p.buffer.length ≤ p.buffer.length := by
        cases nb with
        | some m =>
          simp only [decide_eq_true_eq] at hcond
          simpa using Nat.le_of_not_lt (by simpa using hcond)
        | none => simp
      refine ⟨nb.getD p.buffer.length, rfl, hle, ?_, ?_, ?_⟩
      · simp only [hflag, hcond]
        simp
      · simp [List.length_take, Nat.min_eq_left hle]
      · simp only [hflag, hcond]
        simp

theorem resolveEdge_map (sys : Sys) (h : Port → Port)
    (hid : ∀ p, (h p).id = p.id) (p : Port) :
    resolveEdge (sys.map h) p = (resolveEdge sys p).map h := by
  unfold resolveEdge
  cases p.edge with
  | none => rfl
  | some j => simp [lookup_map sys h hid j]

theorem resolveEdge_mem {sys : Sys} {p q : Port}
    (h : resolveEdge sys p = some q) : q ∈ sys := by
  unfold resolveEdge at h
  cases hedge : p.edge with
  | none => rw [hedge] at h; simp at h
  | some j =>
    rw [hedge] at h
    simp at h
    exact (lookup_id h).2

theorem eq_of_mem_of_id_eq {sys : Sys} (hnd : IdsNodup sys) {p q : Port}
    (hp : p ∈ sys) (hq : q ∈ sys) (h : p.id = q.id) : p = q := by
  have h1 := lookup_self hnd hp
  have h2 := lookup_self hnd hq
  rw [h] at h1
  rw [h1] at h2
  exact Option.some_injective _ h2

theorem idsNodup_map (sys : Sys) (h : Port → Port)
    (hid : ∀ p, (h p).id = p.id) (hnd : IdsNodup sys) :
    IdsNodup (sys.map h) := by
  unfold IdsNodup at hnd ⊢
  rw [List.map_map]
  have : Port.id ∘ h = Port.id := funext hid
  rw [this]
  exact hnd

theorem connect_ok_cases {sys : Sys} {ia ib : Nat} {s' : Sys}
    (h : connect sys ia ib = .ok s') :
    ∃ a b, lookup sys ia = some a ∧ lookup sys ib = some b ∧
      compatible a.meta b.meta = true ∧ ia ≠ ib ∧
      resolveEdge sys a = none ∧ resolveEdge sys b = none ∧
      s' = sys.map (connectUpd ia ib) := by
  unfold connect at h
  cases hla : lookup sys ia with
  | none =>
    rw [hla] at h
    cases hlb : lookup sys ib <;> rw [hlb] at h <;> cases h
  | some a =>
    cases hlb : lookup sys ib with
    | none => rw [hla, hlb] at h; cases h
    | some b =>
      rw [hla, hlb] at h
      dsimp only at h
      split_ifs at h with h1 h2 h3
      all_goals try cases h
      refine ⟨a, b, rfl, rfl, by simpa using h1, h2, ?_, ?_, rfl⟩
      · cases hra : resolveEdge sys a with
        | none => rfl
        | some q => rw [hra] at h3; simp at h3
      · cases hrb : resolveEdge sys b with
        | none => rfl
        | some q => rw [hrb] at h3; simp at h3

theorem disconnect_ok_cases {sys : Sys} {ia : Nat} {s' : Sys}
    (h : disconnect sys ia = .ok s') :
    ∃ a other back, lookup sys ia = some a ∧
      resolveEdge sys a = some other ∧ other.id ≠ ia ∧
      resolveEdge sys other = some back ∧ back.id = ia ∧
      s' = sys.map (disconnectUpd ia other.id) := by
  unfold disconnect at h
  cases hla : lookup sys ia with
  | none => rw [hla] at h; cases h
  | some a =>
    rw [hla] at h
    dsimp only at h
    cases hra : resolveEdge sys a with
    | none => rw [hra] at h; cases h
    | some other =>
      rw [hra] at h
      dsimp only at h
      by_cases h1 : other.id = ia
      · rw [if_pos h1] at h; cases h
      · rw [if_neg h1] at h
        cases hrb : resolveEdge sys other with
        | none => rw [hrb] at h; cases h
        | some back =>
          rw [hrb] at h
          dsimp only at h
          by_cases h2 : back.id = ia
          · rw [if_pos h2] at h
            cases h
            exact ⟨a, other, back, rfl, hra, h1, hrb, h2, rfl⟩
          · rw [if_neg h2] at h; cases h

theorem resolveEdge_some_edge (sys : Sys) (p : Port) (j : Nat)
    (h : p.edge = some j) : resolveEdge sys p = lookup sys j := by
  unfold resolveEdge
  rw [h]
  rfl

theorem edgeSym_preserved_connect {sys s' : Sys} {ia ib : Nat}
    (hnd : IdsNodup sys) (hsym : EdgeSym sys)
    (h : connect sys ia ib = .ok s') : EdgeSym s' := by
  obtain ⟨a, b, hla, hlb, hcomp, hne, hra, hrb, hs'⟩ := connect_ok_cases h
  subst hs'
  have haid : a.id = ia := (lookup_id hla).1
  have hbid : b.id = ib := (lookup_id hlb).1
  have hamem : a ∈ sys := (lookup_id hla).2
  have hbmem : b ∈ sys := (lookup_id hlb).2
  have hid := connectUpd_id ia ib
  have hla' : lookup (sys.map (connectUpd ia ib)) ia =
      some { a with edge := some ib, connect_wait := [] } := by
    rw [lookup_map sys _ hid ia, hla]
    simp [connectUpd, haid]
  have hlb' : lookup (sys.map (connectUpd ia ib)) ib =
      some { b with edge := some ia, connect_wait := [] } := by
    rw [lookup_map sys _ hid ib, hlb]
    simp [connectUpd, hbid, Ne.symm hne]
  intro p' hp'
  rw [symAt_iff]
  intro q' hq'
  obtain ⟨p, hpmem, hpeq⟩ := List.mem_map.mp hp'
  subst hpeq
  by_cases hpa : p.id = ia
  · have hpA : p = a := eq_of_mem_of_id_eq hnd hpmem hamem (by rw [hpa, haid])
    subst hpA
    have hupd : connectUpd ia ib p = { p with edge := some ib, connect_wait := [] } := by
      simp [connectUpd, hpa]
    rw [hupd] at hq' ⊢
    rw [resolveEdge_some_edge _ _ ib rfl, hlb'] at hq'
    cases hq'
    rw [resolveEdge_some_edge _ _ ia rfl, hla']
  · by_cases hpb : p.id = ib
    · have hpB : p = b := eq_of_mem_of_id_eq hnd hpmem hbmem (by rw [hpb, hbid])
      subst hpB
      have hupd : connectUpd ia ib p = { p with edge := some ia, connect_wait := [] } := by
        simp [connectUpd, hpa, hpb]
      rw [hupd] at hq' ⊢
      rw [resolveEdge_some_edge _ _ ia rfl, hla'] at hq'
      cases hq'
      rw [resolveEdge_some_edge _ _ ib rfl, hlb']
    · have hupd : connectUpd ia ib p = p := by
        simp [connectUpd, hpa, hpb]
      rw [hupd] at hq' ⊢
      rw [resolveEdge_map sys _ hid p] at hq'
      cases hr0 : resolveEdge sys p with
      | none => rw [hr0] at hq'; simp at hq'
      | some q0 =>
        rw [hr0] at hq'
        simp at hq'
        subst hq'
        have hq0mem : q0 ∈ sys := resolveEdge_mem hr0
        have hsymq : resolveEdge sys q0 = some p :=
          (symAt_iff sys p).mp (hsym p hpmem) q0 hr0
        by_cases hq0a : q0.id = ia
        · have : q0 = a := eq_of_mem_of_id_eq hnd hq0mem hamem (by rw [hq0a, haid])
          rw [this, hra] at hsymq
          cases hsymq
        · by_cases hq0b : q0.id = ib
          · have : q0 = b := eq_of_mem_of_id_eq hnd hq0mem hbmem (by rw [hq0b, hbid])
            rw [this, hrb] at hsymq
            cases hsymq
          · have hupdq : connectUpd ia ib q0 = q0 := by
              simp [connectUpd, hq0a, hq0b]
            rw [hupdq, resolveEdge_map sys _ hid q0, hsymq]
            simp [hupd]

theorem edgeSym_preserved_disconnect {sys s' : Sys} {ia : Nat}
    (hnd : IdsNodup sys) (hsym : EdgeSym sys)
    (h : disconnect sys ia = .ok s') : EdgeSym s' := by
  obtain ⟨a, other, back, hla, hra, hne, hrb0, hbid', hs'⟩ := disconnect_ok_cases h
  subst hs'
  have haid : a.id = ia := (lookup_id hla).1
  have hamem : a ∈ sys := (lookup_id hla).2
  have homem : other ∈ sys := resolveEdge_mem hra
  have hbmem : back ∈ sys := resolveEdge_mem hrb0
  have hbackA : back = a := eq_of_mem_of_id_eq hnd hbmem hamem (by rw [hbid', haid])
  have hrb : resolveEdge sys other = some a := by
    rw [← hbackA]
    exact hrb0
  have hid := disconnectUpd_id ia other.id
  intro p' hp'
  rw [symAt_iff]
  intro q' hq'
  obtain ⟨p, hpmem, hpeq⟩ := List.mem_map.mp hp'
  subst hpeq
  by_cases hpab : p.id = ia ∨ p.id = other.id
  · have hupd : disconnectUpd ia other.id p =
        disconnect_abort { p with edge := none } := by
      simp [disconnectUpd, hpab]
    rw [hupd] at hq'
    simp [disconnect_abort, resolveEdge] at hq'
  · push_neg at hpab
    have hupd : disconnectUpd ia other.id p = p := by
      simp [disconnectUpd, hpab.1, hpab.2]
    rw [hupd] at hq' ⊢
    rw [resolveEdge_map sys _ hid p] at hq'
    cases hr0 : resolveEdge sys p with
    | none => rw [hr0] at hq'; simp at hq'
    | some q0 =>
      rw [hr0] at hq'
      simp at hq'
      subst hq'
      have hq0mem : q0 ∈ sys := resolveEdge_mem hr0
      have hsymq : resolveEdge sys q0 = some p :=
        (symAt_iff sys p).mp (hsym p hpmem) q0 hr0
      by_cases hq0a : q0.id = ia
      · have hq0A : q0 = a := eq_of_mem_of_id_eq hnd hq0mem hamem (by rw [hq0a, haid])
        rw [hq0A, hra] at hsymq
        cases hsymq
        exact absurd rfl hpab.2
      · by_cases hq0b : q0.id = other.id
        · have hq0O : q0 = other := eq_of_mem_of_id_eq hnd hq0mem homem hq0b
          rw [hq0O, hrb] at hsymq
          cases hsymq
          exact absurd haid hpab.1
        · have hupdq : disconnectUpd ia other.id q0 = q0 := by
            simp [disconnectUpd, hq0a, hq0b]
          rw [hupdq, resolveEdge_map sys _ hid q0, hsymq]
          simp [hupd]

theorem connect_err_sys {sys : Sys} {ia ib : Nat} {e : ConnectError} {s : Sys}
    (h : connect sys ia ib = .err e s) : s = sys := by
  unfold connect at h
  cases hla : lookup sys ia <;> rw [hla] at h
  · cases hlb : lookup sys ib <;> rw [hlb] at h <;> cases h
  · cases hlb : lookup sys ib <;> rw [hlb] at h
    · cases h
    · dsimp only at h
      split_ifs at h <;> cases h <;> rfl

theorem disconnect_err_sys {sys : Sys} {ia : Nat} {e : ConnectError} {s : Sys}
    (h : disconnect sys ia = .err e s) : s = sys := by
  unfold disconnect at h
  cases hla : lookup sys ia with
  | none => rw [hla] at h; cases h
  | some a =>
    rw [hla] at h
    dsimp only at h
    cases hra : resolveEdge sys a with
    | none =>
      rw [hra] at h
      cases h
      rfl
    | some other =>
      rw [hra] at h
      dsimp only at h
      by_cases h1 : other.id = ia
      · rw [if_pos h1] at h; cases h
      · rw [if_neg h1] at h
        cases hrb : resolveEdge sys other with
        | none => rw [hrb] at h; cases h
        | some back =>
          rw [hrb] at h
          dsimp only at h
          by_cases h2 : back.id = ia
          · rw [if_pos h2] at h; cases h
          · rw [if_neg h2] at h; cases h

theorem inv_applyConnOp (sys : Sys) (op : ConnOp)
    (hnd : IdsNodup sys) (hsym : EdgeSym sys) :
    IdsNodup (applyConnOp sys op) ∧ EdgeSym (applyConnOp sys op) := by
  cases op with
  | conn ia ib =>
    unfold applyConnOp
    dsimp only
    cases hc : connect sys ia ib with
    | ok s' =>
      obtain ⟨a, b, _, _, _, _, _, _, hs'⟩ := connect_ok_cases hc
      exact ⟨hs' ▸ idsNodup_map sys _ (connectUpd_id ia ib) hnd,
        edgeSym_preserved_connect hnd hsym hc⟩
    | err e s =>
      have hss : s = sys := connect_err_sys hc
      subst hss
      exact ⟨hnd, hsym⟩
    | fatal => exact ⟨hnd, hsym⟩
  | disc ia =>
    unfold applyConnOp
    dsimp only
    cases hc : disconnect sys ia with
    | ok s' =>
      obtain ⟨a, other, back, _, _, _, _, _, hs'⟩ := disconnect_ok_cases hc
      exact ⟨hs' ▸ idsNodup_map sys _ (disconnectUpd_id ia other.id) hnd,
        edgeSym_preserved_disconnect hnd hsym hc⟩
    | err e s =>
      have hss : s = sys := disconnect_err_sys hc
      subst hss
      exact ⟨hnd, hsym⟩
    | fatal => exact ⟨hnd, hsym⟩

/-! ### Claims -/

/-- C2: `connect(A,B)` on two distinct live ports checks bidirectional tag
compatibility first (so incompatible tags give `TypeMismatch` regardless of
edge state), fails `AlreadyConnected` exactly when either port's edge
resolves to a live partner (a dead partner counts as none, since resolution
is weak-reference upgrade), and otherwise succeeds, recording the edge on
both sides; every failure returns the system state unchanged. -/
theorem connect_checks_and_records (sys : Sys) (ia ib : Nat) (a b : Port)
    (ha : lookup sys ia = some a) (hb : lookup sys ib = some b)
    (hne : ia ≠ ib) :
    (compatible a.meta b.meta = false →
      connect sys ia ib = .err .TypeMismatch sys) ∧
    (compatible a.meta b.meta = true →
      ((resolveEdge sys a).isSome ∨ (resolveEdge sys b).isSome) →
      connect sys ia ib = .err .AlreadyConnected sys) ∧
    (compatible a.meta b.meta = true →
      resolveEdge sys a = none → resolveEdge sys b = none →
      connect sys ia ib = .ok (sys.map (connectUpd ia ib)) ∧
      lookup (sys.map (connectUpd ia ib)) ia =
        some { a with edge := some ib, connect_wait := [] } ∧
      lookup (sys.map (connectUpd ia ib)) ib =
        some { b with edge := some ia, connect_wait := [] }) := by
  have haid : a.id = ia := (lookup_id ha).1
  have hbid : b.id = ib := (lookup_id hb).1
  refine ⟨?_, ?_, ?_⟩
  · intro hcomp
    unfold connect
    rw [ha, hb]
    simp [hcomp]
  · intro hcomp hedge
    unfold connect
    rw [ha, hb]
    have : ((resolveEdge sys a).isSome || (resolveEdge sys b).isSome) = true := by
      rcases hedge with h | h <;> simp [h]
    simp [hcomp, hne, this]
  · intro hcomp hea heb
    have hok : connect sys ia ib = .ok (sys.map (connectUpd ia ib)) := by
      unfold connect
      rw [ha, hb]
      simp [hcomp, hne, hea, heb]
    refine ⟨hok, ?_, ?_⟩
    · rw [lookup_map sys _ (connectUpd_id ia ib) ia, ha]
      simp [connectUpd, haid]
    · rw [lookup_map sys _ (connectUpd_id ia ib) ib, hb]
      simp [connectUpd, hbid, Ne.symm hne]

/-- Witness for C2 on the concrete two-port system: compatible fresh ports
connect successfully and both edges are recorded. -/
theorem connect_checks_and_records_witness :
    lookup sysPair 1 = some (freshPort metaSig 1) ∧
    lookup sysPair 2 = some (freshPort metaSig 2) ∧
    (1 : Nat) ≠ 2 ∧
    compatible metaSig metaSig = true ∧
    connect sysPair 1 2 = .ok (sysPair.map (connectUpd 1 2)) := by
  refine ⟨by decide, by decide, by decide, by decide, ?_⟩
  exact ((connect_checks_and_records sysPair 1 2 (freshPort metaSig 1)
    (freshPort metaSig 2) (by decide) (by decide) (by decide)).2.2
    (by decide) (by decide) (by decide)).1

/-- C5: a read on a port whose disconnect-notification flag is set fails
`Disconnected` and atomically clears the flag (checked first, before the
data test, under the exclusion primitive), so any further read on the
resulting port never fails `Disconnected` for the same event. -/
theorem read_disconnected_at_most_once (p : Port) (nb : Option Nat) (w : Waker)
    (h : p.disconnect_occured = true) :
    readPoll p nb w = (.disconnected, { p with disconnect_occured := false }) ∧
    (∀ nb' w',
      (readPoll { p with disconnect_occured := false } nb' w').1 ≠
        .disconnected) := by
  constructor
  · unfold readPoll
    simp [h]
  · intro nb' w'
    unfold readPoll
    simp only [if_neg (by simp : ¬({ p with disconnect_occured := false } : Port).disconnect_occured = true)]
    split
    · split
      · split <;> simp
      · simp
    · simp

/-- Witness for C5: on the flagged port the first read fails `Disconnected`
and a second read does not. -/
theorem read_disconnected_at_most_once_witness :
    portFlagged.disconnect_occured = true ∧
    (readPoll portFlagged none 5).1 = ReadResult.disconnected ∧
    (readPoll (readPoll portFlagged none 5).2 none 5).1 ≠
      ReadResult.disconnected := by
  have h := read_disconnected_at_most_once portFlagged none 5 (by decide)
  refine ⟨by decide, ?_, ?_⟩
  · rw [h.1]
  · rw [h.1]
    exact h.2 none 5

/-- C6: read completion.  `read_n(n)` stores the byte goal `n * s` (`s` the
element size); the poll stays pending while fewer bytes are queued and, once
at least `n * s` bytes are queued, completes draining exactly `n` elements
(the first `n * s` bytes), leaving the rest.  `read` (no stored goal)
stays pending exactly while the buffer is empty and otherwise drains
everything queued.  (No disconnect is pending and no conflicting reader is
installed, which would instead fail or abort.) -/
theorem read_completion_rule (p : Port) (s n : Nat) (w : Waker)
    (hflag : p.disconnect_occured = false)
    (hreader : p.reader_buf = none ∨ p.reader_buf = some w) :
    (p.buffer.length < n * s →
      readPoll p (some (n * s)) w =
        (.pending,
          { p with reader_buf := some w, buf_lock_q := p.buf_lock_q.tail })) ∧
    (n * s ≤ p.buffer.length →
      readPoll p (some (n * s)) w =
        (.ready (p.buffer.take (n * s)),
          { p with buffer := p.buffer.drop (n * s),
                   buf_lock_q := p.buf_lock_q.tail }) ∧
      (s ≠ 0 → (bytes_as_typed s (p.buffer.take (n * s))).length = n)) ∧
    (p.buffer = [] →
      readPoll p none w =
        (.pending,
          { p with reader_buf := some w, buf_lock_q := p.buf_lock_q.tail })) ∧
    (p.buffer ≠ [] →
      readPoll p none w =
        (.ready p.buffer,
          { p with buffer := [], buf_lock_q := p.buf_lock_q.tail })) := by
  refine ⟨?_, ?_, ?_, ?_⟩
  · intro hlt
    unfold readPoll
    rcases hreader with hr | hr <;> simp [hflag, hlt, hr]
  · intro hge
    have hnotlt : ¬(p.buffer.length < n * s) := Nat.not_lt.mpr hge
    constructor
    · unfold readPoll
      simp [hflag, hnotlt]
    · intro hs
      have htake : (p.buffer.take (n * s)).length = n * s := by
        simp [List.length_take, Nat.min_eq_left hge]
      exact bytes_as_typed_length s hs n _ htake
  · intro hemp
    unfold readPoll
    rcases hreader with hr | hr <;> simp [hflag, hemp, hr]
  · intro hne
    have hpos : ¬(p.buffer.length = 0) := by
      simp [List.length_eq_zero]
      exact hne
    unfold readPoll
    simp [hflag, hpos]

/-- Witness for C6: on the loaded port (twelve bytes, element size 4),
`read_n(5)` pends, `read_n(2)` drains exactly eight bytes, and `read`
drains everything. -/
theorem read_completion_rule_witness :
    portLoaded.disconnect_occured = false ∧
    (readPoll portLoaded (some (5 * 4)) 9).1 = ReadResult.pending ∧
    (readPoll portLoaded (some (2 * 4)) 9).1 =
      ReadResult.ready [0, 1, 2, 3, 4, 5, 6, 7] ∧
    (readPoll portLoaded none 9).1 =
      ReadResult.ready [0, 1, 2, 3, 4, 5, 6, 7, 8, 9, 10, 11] := by
  have h5 := read_completion_rule portLoaded 4 5 9 (by decide) (Or.inl (by decide))
  have h2 := read_completion_rule portLoaded 4 2 9 (by decide) (Or.inl (by decide))
  refine ⟨by decide, ?_, ?_, ?_⟩
  · rw [h5.1 (by decide)]
  · rw [(h2.2.1 (by decide)).1]
    decide
  · rw [h2.2.2.2 (by decide)]
    decide

/-- C7: once the written port has a live partner, a write completes for any
element sequence of any length (the result type admits no error and the
completing branch is taken): the flattened byte representation of the data
is appended FIFO to the partner's buffer with no upper bound, and the wakers
woken are one queued exclusion-primitive waiter (the queue head, if any)
followed by the partner's registered pending reader (if any), which is
taken. -/
theorem write_appends_and_wakes (sys : Sys) (ia : Nat) (p other : Port)
    (elems : List (List Nat)) (w : Waker)
    (hp : lookup sys ia = some p)
    (hother : resolveEdge sys p = some other) :
    writePoll sys ia (typed_as_bytes elems) w =
      (.ready,
        sys.map (fun q =>
          if q.id = other.id then recvWrite (typed_as_bytes elems) q else q),
        other.buf_lock_q.head?.toList ++ other.reader_buf.toList) ∧
    lookup
      (sys.map (fun q =>
        if q.id = other.id then recvWrite (typed_as_bytes elems) q else q))
      other.id =
      some { other with
             buffer := other.buffer ++ typed_as_bytes elems
             buf_lock_q := other.buf_lock_q.tail
             reader_buf := none } := by
  constructor
  · unfold writePoll
    simp only [hp, hother]
  · obtain ⟨j, hj, hl⟩ : ∃ j, p.edge = some j ∧ lookup sys j = some other := by
      unfold resolveEdge at hother
      cases hedge : p.edge with
      | none => rw [hedge] at hother; simp at hother
      | some j => rw [hedge] at hother; exact ⟨j, rfl, hother⟩
    have hoid : other.id = j := (lookup_id hl).1
    have hidpres : ∀ q : Port,
        ((fun q : Port =>
          if q.id = other.id then recvWrite (typed_as_bytes elems) q else q) q).id =
          q.id := by
      intro q
      dsimp only
      split <;> simp [recvWrite]
    rw [lookup_map sys _ hidpres other.id, hoid, hl]
    simp [recvWrite, hoid]

/-- Witness for C7: in the connected two-port system, writing two elements
through port 1 appends eight bytes to port 2's buffer. -/
theorem write_appends_and_wakes_witness :
    lookup (sysPair.map (connectUpd 1 2)) 1 =
      some { freshPort metaSig 1 with edge := some 2, connect_wait := [] } ∧
    (writePoll (sysPair.map (connectUpd 1 2)) 1
        (typed_as_bytes [[1, 2, 3, 4], [5, 6, 7, 8]]) 3).1 = WriteResult.ready := by
  refine ⟨by decide, ?_⟩
  rw [(write_appends_and_wakes (sysPair.map (connectUpd 1 2)) 1
    { freshPort metaSig 1 with edge := some 2, connect_wait := [] }
    { freshPort metaSig 2 with edge := some 1, connect_wait := [] }
    [[1, 2, 3, 4], [5, 6, 7, 8]] 3 (by decide) (by decide)).1]

/-- C10: `disconnect_abort` sets the notification flag and removes the
pending reader but never removes bytes from the buffer; the one read that
consumes the notification fails `Disconnected` leaving the buffer intact,
and a subsequent read returns exactly the data that was queued before the
disconnect. -/
theorem disconnect_keeps_buffered_data (p : Port) (nb : Option Nat)
    (w w' : Waker) :
    (disconnect_abort p).buffer = p.buffer ∧
    (disconnect_abort p).reader_buf = none ∧
    (disconnect_abort p).disconnect_occured = true ∧
    (readPoll (disconnect_abort p) nb w).1 = .disconnected ∧
    (readPoll (disconnect_abort p) nb w).2.buffer = p.buffer ∧
    (p.buffer ≠ [] →
      (readPoll (readPoll (disconnect_abort p) nb w).2 none w').1 =
        .ready p.buffer) := by
  refine ⟨rfl, rfl, rfl, ?_, ?_, ?_⟩
  · unfold readPoll disconnect_abort
    simp
  · unfold readPoll disconnect_abort
    simp
  · intro hne
    have hpos : ¬(p.buffer.length = 0) := by
      simp [List.length_eq_zero]
      exact hne
    unfold readPoll disconnect_abort
    simp [hpos]

/-- Witness for C10 at the loaded port: after a disconnect-abort, the first
read fails `Disconnected` and the second read returns the twelve queued
bytes. -/
theorem disconnect_keeps_buffered_data_witness :
    (disconnect_abort portLoaded).buffer = portLoaded.buffer ∧
    (readPoll (disconnect_abort portLoaded) none 3).1 =
      ReadResult.disconnected ∧
    (readPoll (readPoll (disconnect_abort portLoaded) none 3).2 none 4).1 =
      ReadResult.ready [0, 1, 2, 3, 4, 5, 6, 7, 8, 9, 10, 11] := by
  have h := disconnect_keeps_buffered_data portLoaded none 3 4
  refine ⟨h.1, h.2.2.2.1, ?_⟩
  rw [h.2.2.2.2.2 (by decide)]
  decide

/-- C1: round-trip through a connected pair.  For any non-zero element size
`s` and any finite element sequence `S`, after a successful `connect(A,B)`,
`write(A,S)` completes and a `read(B)` (or a `read_n(B, |S|)`, the required
`|S|` elements being available) yields a byte span that reconstitutes to
exactly `S`, element for element, in order. -/
theorem round_trip_connected_pair (sys : Sys) (ia ib : Nat) (a b : Port)
    (s : Nat) (S : List (List Nat)) (w w' : Waker)
    (ha : lookup sys ia = some a) (hb : lookup sys ib = some b)
    (hne : ia ≠ ib)
    (hcomp : compatible a.meta b.meta = true)
    (hea : resolveEdge sys a = none) (heb : resolveEdge sys b = none)
    (hs : s ≠ 0) (hws : WellSized s S) (hSne : S ≠ [])
    (hbuf : b.buffer = []) (hflag : b.disconnect_occured = false) :
    ∃ sys₁ sys₂ b₂,
      connect sys ia ib = .ok sys₁ ∧
      (writePoll sys₁ ia (typed_as_bytes S) w).1 = .ready ∧
      (writePoll sys₁ ia (typed_as_bytes S) w).2.1 = sys₂ ∧
      lookup sys₂ ib = some b₂ ∧
      b₂.buffer = typed_as_bytes S ∧
      (readPoll b₂ none w').1 = .ready (typed_as_bytes S) ∧
      (readPoll b₂ (some (S.length * s)) w').1 = .ready (typed_as_bytes S) ∧
      bytes_as_typed s (typed_as_bytes S) = S := by
  have haid : a.id = ia := (lookup_id ha).1
  have hbid : b.id = ib := (lookup_id hb).1
  have h1 : connect sys ia ib = .ok (sys.map (connectUpd ia ib)) := by
    unfold connect
    rw [ha, hb]
    simp [hcomp, hne, hea, heb]
  have hla : lookup (sys.map (connectUpd ia ib)) ia =
      some { a with edge := some ib, connect_wait := [] } := by
    rw [lookup_map sys _ (connectUpd_id ia ib) ia, ha]
    simp [connectUpd, haid]
  have hlb : lookup (sys.map (connectUpd ia ib)) ib =
      some { b with edge := some ia, connect_wait := [] } := by
    rw [lookup_map sys _ (connectUpd_id ia ib) ib, hb]
    simp [connectUpd, hbid, Ne.symm hne]
  have hres : resolveEdge (sys.map (connectUpd ia ib))
      { a with edge := some ib, connect_wait := [] } =
      some { b with edge := some ia, connect_wait := [] } := by
    unfold resolveEdge
    simpa using hlb
  have hw : writePoll (sys.map (connectUpd ia ib)) ia (typed_as_bytes S) w =
      (.ready,
        (sys.map (connectUpd ia ib)).map (fun q =>
          if q.id = ({ b with edge := some ia, connect_wait := [] } : Port).id
          then recvWrite (typed_as_bytes S) q else q),
        ({ b with edge := some ia, connect_wait := [] } : Port).buf_lock_q.head?.toList ++
          ({ b with edge := some ia, connect_wait := [] } : Port).reader_buf.toList) := by
    unfold writePoll
    simp only [hla, hres]
  have hidpres : ∀ q : Port,
      ((fun q : Port =>
        if q.id = ({ b with edge := some ia, connect_wait := [] } : Port).id
        then recvWrite (typed_as_bytes S) q else q) q).id = q.id := by
    intro q
    dsimp only
    split <;> simp [recvWrite]
  have hlb2 : lookup
      ((sys.map (connectUpd ia ib)).map (fun q =>
        if q.id = ({ b with edge := some ia, connect_wait := [] } : Port).id
        then recvWrite (typed_as_bytes S) q else q)) ib =
      some (recvWrite (typed_as_bytes S)
        { b with edge := some ia, connect_wait := [] }) := by
    rw [lookup_map _ _ hidpres ib, hlb]
    simp
  have hlen : (typed_as_bytes S).length = S.length * s :=
    typed_as_bytes_length s S hws
  have hlenpos : (typed_as_bytes S).length ≠ 0 := by
    rw [hlen]
    exact Nat.mul_ne_zero (by simpa [List.length_eq_zero] using hSne) hs
  refine ⟨_, _, _, h1, by rw [hw], by rw [hw], hlb2, by simp [recvWrite, hbuf], ?_, ?_,
    bytes_as_typed_typed_as_bytes s hs S hws⟩
  · unfold readPoll
    simp [recvWrite, hbuf, hflag, hlenpos]
  · unfold readPoll
    simp [recvWrite, hbuf, hflag, ← hlen]

/-- Witness for C1: the spec's concrete scenario — two fresh `"sig"` ports,
`connect`, write three 4-byte elements, read them back in order. -/
theorem round_trip_connected_pair_witness :
    WellSized 4 [[1, 0, 0, 0], [2, 0, 0, 0], [3, 0, 0, 0]] ∧
    ∃ sys₁ sys₂ b₂,
      connect sysPair 1 2 = .ok sys₁ ∧
      (writePoll sys₁ 1
        (typed_as_bytes [[1, 0, 0, 0], [2, 0, 0, 0], [3, 0, 0, 0]]) 5).1 =
        WriteResult.ready ∧
      (writePoll sys₁ 1
        (typed_as_bytes [[1, 0, 0, 0], [2, 0, 0, 0], [3, 0, 0, 0]]) 5).2.1 = sys₂ ∧
      lookup sys₂ 2 = some b₂ ∧
      b₂.buffer = typed_as_bytes [[1, 0, 0, 0], [2, 0, 0, 0], [3, 0, 0, 0]] ∧
      (readPoll b₂ none 6).1 =
        .ready (typed_as_bytes [[1, 0, 0, 0], [2, 0, 0, 0], [3, 0, 0, 0]]) ∧
      (readPoll b₂ (some ([[1, 0, 0, 0], [2, 0, 0, 0], [3, 0, 0, 0]].length * 4)) 6).1 =
        .ready (typed_as_bytes [[1, 0, 0, 0], [2, 0, 0, 0], [3, 0, 0, 0]]) ∧
      bytes_as_typed 4 (typed_as_bytes [[1, 0, 0, 0], [2, 0, 0, 0], [3, 0, 0, 0]]) =
        [[1, 0, 0, 0], [2, 0, 0, 0], [3, 0, 0, 0]] :=
  ⟨by decide,
    round_trip_connected_pair sysPair 1 2 (freshPort metaSig 1) (freshPort metaSig 2)
      4 [[1, 0, 0, 0], [2, 0, 0, 0], [3, 0, 0, 0]] 5 6
      (by decide) (by decide) (by decide) (by decide) (by decide) (by decide)
      (by decide) (by decide) (by decide) (by decide) (by decide)⟩

/-- C8: for a port whose buffer is only ever filled by writes from
type-compatible partners (every incoming write carries whole elements of the
port's element size `s`), the buffer always holds a whole number of
`s`-byte chunks, and the byte count delivered to any completed read —
`read_n` (byte goal a multiple of `s`) or `read` (drains everything) — is an
exact multiple of `s`: the fatal `assert_eq!(len % size, 0)` in
`bytes_as_typed` is unreachable under that precondition. -/
theorem alignment_check_unreachable (s : Nat) (hs : s ≠ 0) :
    ∀ (acts : List PortAct) (p : Port),
      s ∣ p.buffer.length → ActsWellSized s acts →
      s ∣ (runPortActs s p acts).1.buffer.length ∧
      ∀ d ∈ (runPortActs s p acts).2, bytesAligned s d := by
  intro acts
  induction acts with
  | nil =>
    intro p hdiv _
    exact ⟨by simpa [runPortActs] using hdiv, by simp [runPortActs]⟩
  | cons act rest ih =>
    intro p hdiv hacts
    have hrest : ActsWellSized s rest := fun x hx =>
      hacts x (List.mem_cons_of_mem _ hx)
    cases act with
    | wr elems =>
      have hws : WellSized s elems := by
        have := hacts _ (List.mem_cons_self _ _)
        simpa [actWellSized] using this
      have hdiv' : s ∣ (recvWrite (typed_as_bytes elems) p).buffer.length := by
        have hlen : (recvWrite (typed_as_bytes elems) p).buffer.length =
            p.buffer.length + elems.length * s := by
          simp [recvWrite, typed_as_bytes_length s elems hws]
        rw [hlen]
        exact Nat.dvd_add hdiv (Dvd.intro_left _ rfl)
      have hrun : runPortActs s p (.wr elems :: rest) =
          runPortActs s (recvWrite (typed_as_bytes elems) p) rest := rfl
      rw [hrun]
      exact ih _ hdiv' hrest
    | rd nElems w =>
      rcases hrp : readPoll p (nElems.map (fun k => k * s)) w with ⟨r, p'⟩
      rcases readPoll_shape p (nElems.map (fun k => k * s)) w with
        ⟨n, hn, hle, hready, hlen, hbuf⟩ | ⟨hbuf, hnready⟩
      · rw [hrp] at hready hbuf
        simp only at hready hbuf
        have hdvdn : s ∣ n := by
          cases nElems with
          | some k =>
            simp at hn
            exact hn ▸ Dvd.intro_left k rfl
          | none =>
            simp at hn
            exact hn ▸ hdiv
        have hdiv' : s ∣ p'.buffer.length := by
          rw [hbuf, List.length_drop]
          exact Nat.dvd_sub' hdiv hdvdn
        subst hready
        have hrun : runPortActs s p (.rd nElems w :: rest) =
            ((runPortActs s p' rest).1,
              p.buffer.take n :: (runPortActs s p' rest).2) := by
          conv_lhs => rw [runPortActs.eq_def]
          dsimp only
          rw [hrp]
        rw [hrun]
        refine ⟨(ih p' hdiv' hrest).1, ?_⟩
        intro d hd
        rcases List.mem_cons.mp hd with hd | hd
        · subst hd
          unfold bytesAligned
          rw [hlen]
          obtain ⟨c, rfl⟩ := hdvdn
          simp [Nat.mul_mod_right]
        · exact (ih p' hdiv' hrest).2 d hd
      · rw [hrp] at hbuf hnready
        simp only at hbuf hnready
        have hdiv' : s ∣ p'.buffer.length := hbuf ▸ hdiv
        have hrun : runPortActs s p (.rd nElems w :: rest) =
            runPortActs s p' rest := by
          conv_lhs => rw [runPortActs.eq_def]
          dsimp only
          rw [hrp]
          cases r with
          | ready d => exact absurd rfl (hnready d)
          | pending => rfl
          | disconnected => rfl
          | fatal => rfl
        rw [hrun]
        exact ih p' hdiv' hrest

/-- Witness for C8: a trace on a fresh port — write two 4-byte elements,
`read_n(1)`, then `read` — keeps the buffer aligned and delivers only
4-byte-multiple spans. -/
theorem alignment_check_unreachable_witness :
    (4 : Nat) ∣ (freshPort metaSig 7).buffer.length ∧
    ActsWellSized 4
      [PortAct.wr [[1, 1, 1, 1], [2, 2, 2, 2]], PortAct.rd (some 1) 5,
        PortAct.rd none 5] ∧
    ∀ d ∈ (runPortActs 4 (freshPort metaSig 7)
        [PortAct.wr [[1, 1, 1, 1], [2, 2, 2, 2]], PortAct.rd (some 1) 5,
          PortAct.rd none 5]).2,
      bytesAligned 4 d :=
  ⟨by decide, by decide,
    (alignment_check_unreachable 4 (by decide)
      [PortAct.wr [[1, 1, 1, 1], [2, 2, 2, 2]], PortAct.rd (some 1) 5,
        PortAct.rd none 5]
      (freshPort metaSig 7) (by decide) (by decide)).2⟩

/-- C3: in a system with symmetric edges and distinct ids, `disconnect(A)`
fails `NotConnected` exactly when A's edge resolves to no live partner
(returning the state unchanged); when A is connected to a live partner B, it
succeeds — no failure once the locks are held — clearing both edges and
running disconnect-abort on both ports, so suspended operations on either
side are failed (flag set, pending reader removed and woken). -/
theorem disconnect_clears_both_edges (sys : Sys) (ia : Nat) (a : Port)
    (ha : lookup sys ia = some a)
    (hsym : EdgeSym sys) (hnd : IdsNodup sys) :
    (resolveEdge sys a = none →
      disconnect sys ia = .err .NotConnected sys) ∧
    (∀ b, resolveEdge sys a = some b → b.id ≠ ia →
      disconnect sys ia = .ok (sys.map (disconnectUpd ia b.id)) ∧
      lookup (sys.map (disconnectUpd ia b.id)) ia =
        some (disconnect_abort { a with edge := none }) ∧
      lookup (sys.map (disconnectUpd ia b.id)) b.id =
        some (disconnect_abort { b with edge := none })) := by
  have haid : a.id = ia := (lookup_id ha).1
  have hamem : a ∈ sys := (lookup_id ha).2
  constructor
  · intro hnone
    unfold disconnect
    simp only [ha, hnone]
  · intro b hres hbne
    have hback : resolveEdge sys b = some a :=
      (symAt_iff sys a).mp (hsym a hamem) b hres
    obtain ⟨j, hj, hlj⟩ : ∃ j, a.edge = some j ∧ lookup sys j = some b := by
      unfold resolveEdge at hres
      cases hedge : a.edge with
      | none => rw [hedge] at hres; simp at hres
      | some j => rw [hedge] at hres; exact ⟨j, rfl, hres⟩
    have hbid : b.id = j := (lookup_id hlj).1
    have hlbid : lookup sys b.id = some b := by rw [hbid]; exact hlj
    have hok : disconnect sys ia = .ok (sys.map (disconnectUpd ia b.id)) := by
      unfold disconnect
      simp only [ha, hres, hback]
      simp [hbne, haid]
    refine ⟨hok, ?_, ?_⟩
    · rw [lookup_map sys _ (disconnectUpd_id ia b.id) ia, ha]
      simp [disconnectUpd, haid]
    · rw [lookup_map sys _ (disconnectUpd_id ia b.id) b.id, hlbid]
      simp [disconnectUpd, hbne]

/-- Witness for C3: disconnecting port 1 of the connected pair clears both
edges and sets both disconnect flags. -/
theorem disconnect_clears_both_edges_witness :
    EdgeSym (sysPair.map (connectUpd 1 2)) ∧
    resolveEdge (sysPair.map (connectUpd 1 2))
      { freshPort metaSig 1 with edge := some 2, connect_wait := [] } =
      some { freshPort metaSig 2 with edge := some 1, connect_wait := [] } ∧
    disconnect (sysPair.map (connectUpd 1 2)) 1 =
      .ok ((sysPair.map (connectUpd 1 2)).map (disconnectUpd 1 2)) := by
  refine ⟨by decide, by decide, ?_⟩
  exact ((disconnect_clears_both_edges (sysPair.map (connectUpd 1 2)) 1
    { freshPort metaSig 1 with edge := some 2, connect_wait := [] }
    (by decide) (by decide) (by decide)).2
    { freshPort metaSig 2 with edge := some 1, connect_wait := [] }
    (by decide) (by decide)).1

/-- C4: edge symmetry is an invariant of the connection protocol.  Starting
from any system of distinct-id ports with no edges, after any sequence of
connect and disconnect operations (each observed atomically, between
operations), whenever a port's edge resolves to a live partner, that
partner's edge resolves back to it: no observer between operations ever
sees a one-sided edge. -/
theorem edge_symmetry_invariant (sys₀ : Sys) (hnd : IdsNodup sys₀)
    (hinit : ∀ p ∈ sys₀, p.edge = none) (ops : List ConnOp) :
    EdgeSym (runConnOps sys₀ ops) := by
  have hsym₀ : EdgeSym sys₀ := by
    intro p hp
    have hres : resolveEdge sys₀ p = none := by
      unfold resolveEdge
      rw [hinit p hp]
      rfl
    simp [symAt, hres]
  suffices h : ∀ (ops : List ConnOp) (sys : Sys), IdsNodup sys → EdgeSym sys →
      IdsNodup (runConnOps sys ops) ∧ EdgeSym (runConnOps sys ops) by
    exact (h ops sys₀ hnd hsym₀).2
  intro ops
  induction ops with
  | nil =>
    intro sys h1 h2
    exact ⟨h1, h2⟩
  | cons op rest ih =>
    intro sys h1 h2
    have hstep := inv_applyConnOp sys op h1 h2
    exact ih _ hstep.1 hstep.2

/-- Witness for C4: running connect, disconnect and a reconnect on the
two fresh ports leaves a symmetric edge relation. -/
theorem edge_symmetry_invariant_witness :
    IdsNodup sysPair ∧
    (∀ p ∈ sysPair, p.edge = none) ∧
    EdgeSym (runConnOps sysPair
      [ConnOp.conn 1 2, ConnOp.disc 1, ConnOp.conn 2 1, ConnOp.conn 1 2,
        ConnOp.disc 2, ConnOp.disc 2]) :=
  ⟨by decide, by decide,
    edge_symmetry_invariant sysPair (by decide) (by decide)
      [ConnOp.conn 1 2, ConnOp.disc 1, ConnOp.conn 2 1, ConnOp.conn 1 2,
        ConnOp.disc 2, ConnOp.disc 2]⟩

theorem connectLockPair_fst_lt_snd (x y : Nat) (h : x ≠ y) :
    (connectLockPair x y).1 < (connectLockPair x y).2 := by
  unfold connectLockPair
  split_ifs with hxy
  · exact hxy
  · exact Nat.lt_of_le_of_ne (Nat.le_of_not_lt hxy) (Ne.symm h)

theorem disconnectLockPair_eq_connectLockPair (x y : Nat) :
    disconnectLockPair x y = connectLockPair x y := rfl

/-- C9: deadlock freedom of the connection protocol.  Both `connect` and
`disconnect` acquire the two edge locks in ascending numeric-id order
regardless of call direction, so in any population of concurrent
connect/disconnect operations — each characterised by the ordered lock pair
the code computes for its two distinct ports, approached from either numeric
order — no reachable configuration is a deadlock: whenever some operation is
unfinished, some operation can make progress. -/
theorem connection_protocol_deadlock_free {n : Nat} (s : LockState n)
    (hw : ∀ t, ∃ x y, x ≠ y ∧
      (s.want t = connectLockPair x y ∨ s.want t = disconnectLockPair x y)) :
    ¬ deadlocked s := by
  have hlt : ∀ t, (s.want t).1 < (s.want t).2 := by
    intro t
    obtain ⟨x, y, hxy, hcase⟩ := hw t
    rcases hcase with hc | hc <;> rw [hc] <;>
      exact connectLockPair_fst_lt_snd x y hxy
  rintro ⟨⟨t0, ht0⟩, hstuck⟩
  set B := (Finset.univ.sup fun t : Fin n => (s.want t).2) + 1 with hB
  have hbound : ∀ t, wantedLock s t < B := by
    intro t
    have hsup : (s.want t).2 ≤ Finset.univ.sup fun t : Fin n => (s.want t).2 :=
      Finset.le_sup (f := fun t : Fin n => (s.want t).2) (Finset.mem_univ t)
    unfold wantedLock
    split_ifs
    · exact Nat.lt_succ_of_le (Nat.le_of_lt (Nat.lt_of_lt_of_le (hlt t) hsup))
    · exact Nat.lt_succ_of_le hsup
  have key : ∀ (k : Nat) (t : Fin n), s.prog t < 3 →
      B ≤ wantedLock s t + k → False := by
    intro k
    induction k with
    | zero =>
      intro t _ hk
      simp at hk
      exact absurd hk (Nat.not_le_of_lt (hbound t))
    | succ k ih =>
      intro t ht hk
      have hcs := hstuck t
      by_cases h2 : s.prog t = 2
      · simp [canStep, h2] at hcs
      · have hfree : lockFree s (wantedLock s t) = false := by
          unfold canStep at hcs
          by_cases h0 : s.prog t = 0
          · rw [if_pos h0] at hcs
            simpa [wantedLock, h0] using hcs
          · have h1 : s.prog t = 1 := by omega
            rw [if_neg h0, if_pos h1] at hcs
            simpa [wantedLock, h0] using hcs
        have hheld : ∃ u, holdsLock s u (wantedLock s t) = true := by
          unfold lockFree at hfree
          simp at hfree
          exact hfree
        obtain ⟨u, hu⟩ := hheld
        unfold holdsLock at hu
        simp at hu
        rcases hu with ⟨hpu, hL⟩ | ⟨hpu, hL⟩
        · rcases hpu with hpu | hpu
          · have hgt : wantedLock s t < wantedLock s u := by
              have hwu : wantedLock s u = (s.want u).2 := by
                simp [wantedLock, hpu]
              rw [hwu, ← hL]
              exact hlt u
            exact ih u (by omega) (by omega)
          · simp [canStep, hpu] at hcs
            have := hstuck u
            simp [canStep, hpu] at this
        · have := hstuck u
          simp [canStep, hpu] at this
  exact key B t0 ht0 (Nat.le_add_left B (wantedLock s t0))

/-- Witness for C9: a connect and a disconnect racing over the same two
ports from opposite numeric orders are not deadlocked. -/
theorem connection_protocol_deadlock_free_witness :
    ¬ deadlocked lockDemo :=
  connection_protocol_deadlock_free lockDemo (fun t =>
    if ht : t.val = 0 then
      ⟨1, 2, by decide, Or.inl (by simp [lockDemo, ht])⟩
    else
      ⟨2, 1, by decide, Or.inr (by simp [lockDemo, ht])⟩)

end ModularFlow
